import Mathlib

/-!
Shallow embedding of the local photo/record persistence and migration
subsystem of the field-report app (TypeScript sources), together with
theorems settling the specification's claims about it.

Conventions used throughout:
* IndexedDB object stores are modelled as association lists from string
  keys to values; `put` replaces-or-appends, `delete` filters, `getAll`
  returns the stored values in insertion order.
* JavaScript `Date.now()` timestamps are natural numbers; optional numeric
  fields are `Option Nat` and JavaScript truthiness (`x || y`,
  `if (x.lastSaved)`) is modelled explicitly: `some 0` is falsy.
* `Math.round` is `fun x => ⌊x + 1/2⌋` (round half towards +∞), which is
  exact for JavaScript doubles on the magnitudes that occur here.
* Asynchronous functions that can reject are `Except`-valued; environment-
  dependent outcomes (platform write rejections, image decoder success)
  are explicit parameters of the embedding.
-/

namespace FieldApp

/-- JavaScript `Math.round` on exact rationals: `⌊x + 1/2⌋`. -/
def jsRound (x : ℚ) : ℤ := ⌊x + (1 : ℚ)/2⌋

/-- JavaScript `Math.round` on reals, as a relation (used where the
source computes with `Math.sqrt`, whose exact value is irrational):
`n = ⌊x + 1/2⌋` characterized without the noncomputable floor. -/
def jsRoundedR (x : ℝ) (n : ℤ) : Prop :=
  (n : ℝ) ≤ x + 1/2 ∧ x + 1/2 < (n : ℝ) + 1

/-- JavaScript truthiness of an optional number: `undefined` and `0` are
falsy. -/
def numTruthy : Option Nat → Bool
  | none => false
  | some n => n != 0

/-- JavaScript `a || b` for an optional number `a` and default `b`. -/
def numOrElse (a : Option Nat) (b : Nat) : Nat :=
  match a with
  | none => b
  | some n => if n = 0 then b else n

/-! ## Data model (src/types/location.ts) -/

/-- `Photo` from `src/types/location.ts`: `data` is the legacy Base64
payload (`string | undefined`), abstracted to its relevant observables:
whether it is present, whether it starts with `data:image/`, whether
`atob`/`fetch` can decode it, and the decoded byte size. -/
structure Photo where
  id : String
  hasData : Bool
  dataIsImagePrefixed : Bool
  dataDecodable : Bool
  dataDecodedSize : Nat
  name : String
  timestamp : Option Nat
  deriving Repr, DecidableEq

/-- `Floor` from `src/types/location.ts`. -/
structure Floor where
  id : String
  floorName : String
  customFloorName : Option String
  floorInfo : String
  photos : List Photo
  isCompleted : Option Bool
  deriving Repr, DecidableEq

/-- `Location` from `src/types/location.ts` (the `address` record is
inlined to its single `addressAndName` field). -/
structure Location where
  id : String
  addressAndName : String
  locationType : Option String
  checkItems : Option String
  floors : List Floor
  notes : Option String
  timestamp : Nat
  lastSaved : Option Nat
  deriving Repr, DecidableEq

/-- Sort key used by `loadAllLocations` and `attemptDataRecovery`:
`(b.lastSaved || b.timestamp)`. -/
def sortKey (l : Location) : Nat := numOrElse l.lastSaved l.timestamp

/-! ## Association-list object stores -/

/-- `store.put(value, key)`: replace the entry under `key`, or append it. -/
def kvPut {α : Type} (m : List (String × α)) (k : String) (v : α) :
    List (String × α) :=
  match m with
  | [] => [(k, v)]
  | (k', v') :: rest =>
      if k' = k then (k, v) :: rest else (k', v') :: kvPut rest k v

/-- `store.get(key)`. -/
def kvGet {α : Type} (m : List (String × α)) (k : String) : Option α :=
  match m with
  | [] => none
  | (k', v') :: rest => if k' = k then some v' else kvGet rest k

/-- `store.delete(key)` (a no-op when the key is absent). -/
def kvDel {α : Type} (m : List (String × α)) (k : String) :
    List (String × α) :=
  m.filter (fun p => p.1 ≠ k)

/-! ## Blob Store (src/utils/storage-indexeddb.ts) -/

/-- Photo metadata row of the `metadata` object store
(`{name, timestamp, size, locationId, floorId}`). -/
structure PhotoMeta where
  name : String
  timestamp : Nat
  size : Nat
  locationId : String
  floorId : String
  deriving Repr, DecidableEq

/-- A stored binary photo payload, abstracted to its bytes. -/
structure PBlob where
  bytes : List Nat
  deriving Repr, DecidableEq

/-- The `FieldReportDB` IndexedDB database: object stores `locations`
(keyPath `id`), `photos` (keyed by photo id), `metadata` (keyed by photo
id) and `settings` (keyed by name). -/
structure DB where
  locations : List Location
  photos : List (String × PBlob)
  metadata : List (String × PhotoMeta)
  settings : List (String × String)
  deriving Repr, DecidableEq

/-- `saveLocation`: stamps `lastSaved = Date.now()` and `put`s the single
location into the `locations` store (keyPath `id`). -/
def saveLocation (db : DB) (loc : Location) (now : Nat) : DB :=
  let stamped := { loc with lastSaved := some now }
  { db with
    locations :=
      if db.locations.any (fun l => l.id = loc.id) then
        db.locations.map (fun l => if l.id = loc.id then stamped else l)
      else
        db.locations ++ [stamped] }

/-- `getLocation(id)`. -/
def getLocation (db : DB) (id : String) : Option Location :=
  db.locations.find? (fun l => l.id = id)

/-- `loadAllLocations`: all locations sorted by
`(b.lastSaved || b.timestamp) - (a.lastSaved || a.timestamp)` descending. -/
def loadAllLocations (db : DB) : List Location :=
  db.locations.mergeSort (fun a b => sortKey b ≤ sortKey a)

/-- `savePhotoBlob(photoId, blob, metadata)`: one transaction putting the
blob under `photoId` into `photos` and the metadata row under `photoId`
into `metadata`. -/
def savePhotoBlob (db : DB) (photoId : String) (blob : PBlob)
    (name locationId floorId : String) (now : Nat) : DB :=
  { db with
    photos := kvPut db.photos photoId blob
    metadata := kvPut db.metadata photoId
      { name := name, timestamp := now, size := blob.bytes.length,
        locationId := locationId, floorId := floorId } }

/-- `loadPhotoBlob(photoId)` (`null` on absence, modelled as `none`). -/
def loadPhotoBlob (db : DB) (photoId : String) : Option PBlob :=
  kvGet db.photos photoId

/-- `deleteLocation(id)`: one transaction that deletes the location, then
scans all metadata *values*, filters those with `locationId = id`, and for
each one deletes `photos` and `metadata` under the key `photo.name` —
the metadata row's display-name field, not the photo-id key the two
stores are actually keyed by. -/
def deleteLocation (db : DB) (id : String) : DB :=
  let db1 := { db with locations := db.locations.filter (fun l => l.id ≠ id) }
  let allMetadata := db1.metadata.map Prod.snd
  let relatedPhotos := allMetadata.filter (fun m => m.locationId = id)
  relatedPhotos.foldl
    (fun d m =>
      { d with photos := kvDel d.photos m.name,
               metadata := kvDel d.metadata m.name })
    db1

/-! ## Handle Cache (src/utils/storage-indexeddb.ts, `urlCache`) -/

/-- Process state around the Blob Store: the module-level `urlCache`
mapping photo ids to blob-URL handles, plus a counter modelling
`URL.createObjectURL`'s freshness (each call returns a handle never
produced before). -/
structure AppState where
  db : DB
  urlCache : List (String × Nat)
  nextUrl : Nat
  deriving Repr, DecidableEq

/-- `createPhotoUrl(photoId)`: cache hit returns the cached handle; miss
loads the blob (absent blob gives `null`), creates a fresh handle, caches
and returns it. -/
def createPhotoUrl (s : AppState) (photoId : String) :
    AppState × Option Nat :=
  match kvGet s.urlCache photoId with
  | some u => (s, some u)
  | none =>
      match loadPhotoBlob s.db photoId with
      | none => (s, none)
      | some _ =>
          let u := s.nextUrl
          ({ s with urlCache := kvPut s.urlCache photoId u,
                    nextUrl := u + 1 }, some u)

/-- `revokePhotoUrl(photoId)`: revoke and drop the cached handle if
present; no-op otherwise. -/
def revokePhotoUrl (s : AppState) (photoId : String) : AppState :=
  { s with urlCache := kvDel s.urlCache photoId }

/-- `revokeAllPhotoUrls()`: revoke every handle and clear the cache. -/
def revokeAllPhotoUrls (s : AppState) : AppState :=
  { s with urlCache := [] }

/-- `clearAllData()`: one transaction over all four stores that clears
`locations`, `photos` and `metadata` (`settings`는 유지 — kept), then
revokes every cached URL handle. -/
def clearAllData (s : AppState) : AppState :=
  let db' := { s.db with locations := [], photos := [], metadata := [] }
  revokeAllPhotoUrls { s with db := db' }

/-- Invariant of the handle cache: every cached handle was produced by an
earlier `URL.createObjectURL` call, so it is below the freshness counter. -/
def HandleInv (s : AppState) : Prop :=
  ∀ p u, (p, u) ∈ s.urlCache → u < s.nextUrl

/-! ## Resilient Record Writer and recovery (src/utils/storage.ts) -/

/-- The two storage tiers this module touches: the parsed content of
`localStorage['fieldReportLocations']` (`none` when the key is absent or
does not parse to an array) and the version-1 `locations` object store. -/
structure TierState where
  ls : Option (List Location)
  idb : List Location
  deriving Repr, DecidableEq

/-- Platform outcomes of the fallible steps inside `saveLocationSafely`:
whether the per-record IndexedDB `put` rejects, the serialized byte size
`new Blob([JSON.stringify(updatedLocations)]).size`, whether the full
`localStorage.setItem` backup throws (and whether with name
`QuotaExceededError`), and whether the single-record retry `setItem`
throws. -/
structure SaveEnv where
  idbPutFails : Bool
  dataSize : Nat
  lsSetErr : Option Bool
  lsRetryFails : Bool
  deriving Repr, DecidableEq

/-- `loadFromIndexedDB`: `getAll` sorted by `b.timestamp - a.timestamp`. -/
def loadFromIndexedDB (st : TierState) : List Location :=
  st.idb.mergeSort (fun a b => b.timestamp ≤ a.timestamp)

/-- `loadLocations`: localStorage first; when it yields no array or an
empty one, fall back to IndexedDB (the localStorage re-backup it then
attempts does not change the returned list and is irrelevant to the
claims, so the state is left unchanged here). -/
def loadLocations (st : TierState) : List Location :=
  match st.ls with
  | some arr => if arr.length ≠ 0 then arr else loadFromIndexedDB st
  | none => loadFromIndexedDB st

/-- The updated full list built by `saveLocationSafely`: replace the
matching entry in place, or prepend the new location. -/
def upsertList (existing : List Location) (loc : Location) : List Location :=
  if existing.any (fun l => l.id = loc.id) then
    existing.map (fun l => if l.id = loc.id then loc else l)
  else
    loc :: existing

/-- IndexedDB `store.put(location)` on the keyPath-`id` store. -/
def idbPut (idb : List Location) (loc : Location) : List Location :=
  if idb.any (fun l => l.id = loc.id) then
    idb.map (fun l => if l.id = loc.id then loc else l)
  else
    idb ++ [loc]

/-- `saveLocationSafely(location)`.
1. load the current list; 2. upsert `location` into it; 3. `try` the
per-record IndexedDB put, `catch`ing (and only logging) any rejection;
4. `try` the full-list localStorage backup when its serialized size is
under 5 MB, on a `QuotaExceededError` remove the backup key and retry
with `[location]` alone (that retry's own failure is also only logged);
any other `setItem` error is only logged. Nothing thrown inside the two
inner `try`s reaches the caller, so the returned value is always `ok`. -/
def saveLocationSafely (env : SaveEnv) (st : TierState) (loc : Location) :
    Except Unit TierState :=
  let updated := upsertList (loadLocations st) loc
  let st1 :=
    if env.idbPutFails then st
    else { st with idb := idbPut st.idb loc }
  let st2 :=
    if env.dataSize < 5 * 1024 * 1024 then
      match env.lsSetErr with
      | none => { st1 with ls := some updated }
      | some isQuota =>
          if isQuota then
            let cleared := { st1 with ls := none }
            if env.lsRetryFails then cleared
            else { cleared with ls := some [loc] }
          else st1
    else st1
  .ok st2

/-- One step of the localStorage merge loop in `attemptDataRecovery`:
`recoveredData.find(...)` / `findIndex(...)` / in-place replace when
`localLocation.lastSaved && localLocation.lastSaved > (existing.lastSaved || 0)`,
else `push`. Written as first-match replacement, which is what
find/findIndex/assignment/push do. -/
def mergeKeep (ex l : Location) : Location :=
  if numTruthy l.lastSaved ∧ (l.lastSaved.getD 0) > numOrElse ex.lastSaved 0
  then l else ex

/-- Recursive form of the per-`localLocation` step: replace the first
entry with the same id (per `mergeKeep`), or append at the end. -/
def mergeStep (l : Location) : List Location → List Location
  | [] => [l]
  | x :: xs => if x.id = l.id then mergeKeep x l :: xs else x :: mergeStep l xs

/-- `attemptDataRecovery()`: IndexedDB tier (already timestamp-sorted by
`loadFromIndexedDB`) merged with the localStorage tier (the third,
service-worker step in the source opens a database and discards the
result — a no-op), then sorted by `(b.lastSaved || b.timestamp)`
descending. -/
def attemptDataRecovery (st : TierState) : List Location :=
  let recovered := loadFromIndexedDB st
  let merged := (st.ls.getD []).foldl (fun acc l => mergeStep l acc) recovered
  merged.mergeSort (fun a b => sortKey b ≤ sortKey a)

/-! ## Codec Utilities (src/utils/imageUtils.ts) -/

/-- Mime-type classification used by `compressImage`. -/
inductive FileKind
  | jpeg
  | png
  | heif
  | otherImage
  deriving Repr, DecidableEq

/-- An input file together with the platform outcomes of its fallible
decode steps: whether `new Image()` fires `onload` for a blob URL of the
file (primary decode), whether `FileReader.readAsDataURL` succeeds,
whether `new Image()` fires `onload` for the resulting data URL (fallback
decode), whether `canvas.getContext('2d')` is available, and the data URL
the reader produces (the original bytes in Base64 form). -/
structure ImgFile where
  kind : FileKind
  primaryDecodeOk : Bool
  readOk : Bool
  fallbackDecodeOk : Bool
  ctxOk : Bool
  dataUrl : String
  deriving Repr, DecidableEq

/-- Result of `compressImage`: either a canvas re-encode (format and
encoder quality recorded; its dimensions are governed separately by
`canvasDims`), or — verbatim from the source's last-resort branch — the
original data URL read from the file. -/
inductive CompressOut
  | encoded (format : String) (quality : ℚ)
  | original (dataUrl : String)
  deriving Repr, DecidableEq

/-- Rejection reasons of `compressImage`. -/
inductive CompressErr
  | readFailed
  | noCanvasContext
  deriving Repr, DecidableEq

/-- `compressWithCanvas(img, maxWidth, quality, outputFormat)`: rejects
only when no 2d context exists, else resolves with the re-encode. -/
def compressWithCanvas (f : ImgFile) (quality : ℚ) (format : String) :
    Except CompressErr CompressOut :=
  if f.ctxOk then .ok (.encoded format quality) else .error .noCanvasContext

/-- `fallbackCompression(file, maxWidth, quality)`: read the file with
`FileReader` (rejecting on read failure), decode the data URL; on decode
success re-encode as JPEG at `min(quality, 0.6)` (rejecting when no 2d
context exists); on decode *failure* resolve with the original data URL
(`최후의 수단: 원본 데이터 사용` — "last resort: use the original data"). -/
def fallbackCompression (f : ImgFile) (quality : ℚ) :
    Except CompressErr CompressOut :=
  if ¬ f.readOk then .error .readFailed
  else if f.fallbackDecodeOk then
    if f.ctxOk then .ok (.encoded "image/jpeg" (min quality (6/10)))
    else .error .noCanvasContext
  else .ok (.original f.dataUrl)

/-- `compressImage(file, maxWidth, quality)` (the canvas-based variant
used by the form): HEIF files re-encode as JPEG at 0.85; PNG keeps PNG at
0.85; others JPEG at `quality`. Primary decode failure falls back to
`fallbackCompression`. -/
def compressImage (f : ImgFile) (quality : ℚ) :
    Except CompressErr CompressOut :=
  match f.kind with
  | .heif =>
      if f.primaryDecodeOk then compressWithCanvas f (85/100) "image/jpeg"
      else fallbackCompression f quality
  | .png =>
      if f.primaryDecodeOk then compressWithCanvas f (85/100) "image/png"
      else fallbackCompression f quality
  | _ =>
      if f.primaryDecodeOk then compressWithCanvas f quality "image/jpeg"
      else fallbackCompression f quality

/-- Pixel ceiling of `compressWithCanvas`: `4096 * 4096`. -/
def canvasCeiling : ℤ := 4096 * 4096

/-- First resize stage of `compressWithCanvas`: when the larger dimension
exceeds `maxWidth`, scale both by `ratio = maxWidth / maxDimension` and
`Math.round` (exact rational arithmetic; JavaScript doubles are exact to
well beyond these magnitudes). -/
def calcResize (w h maxWidth : ℤ) : ℤ × ℤ :=
  if max w h > maxWidth then
    (jsRound (((w * maxWidth : ℤ) : ℚ) / ((max w h : ℤ) : ℚ)),
     jsRound (((h * maxWidth : ℤ) : ℚ) / ((max w h : ℤ) : ℚ)))
  else (w, h)

/-- Second stage of `compressWithCanvas`: when `width * height` exceeds
the ceiling, scale both by `downsizeRatio = Math.sqrt(ceiling / total)`
and `Math.round`. The irrational square root is characterized exactly:
`s ≥ 0` and `s² · (w·h) = ceiling`. -/
def downsizeRel (w h w2 h2 : ℤ) : Prop :=
  ∃ s : ℝ, 0 ≤ s ∧ s ^ 2 * ((w : ℝ) * h) = (canvasCeiling : ℝ) ∧
    jsRoundedR ((w : ℝ) * s) w2 ∧ jsRoundedR ((h : ℝ) * s) h2

/-- Output dimensions of `compressWithCanvas` for a decoded image of
`w × h` pixels: the first resize stage, followed by the pixel-ceiling
downsize stage when the resized product exceeds the ceiling. -/
def canvasDims (w h maxWidth : ℤ) (out : ℤ × ℤ) : Prop :=
  let r := calcResize w h maxWidth
  if r.1 * r.2 > canvasCeiling then downsizeRel r.1 r.2 out.1 out.2
  else out = r

/-! ## Migration Engine (src/utils/photo-store.ts and
src/hooks/useMigration.ts) -/

/-- A legacy localStorage entry scanned by `migrateFromLocalStorage`
(keys `location_*` or `locations`): `none` when `JSON.parse` of its value
throws (the per-key `catch` only logs), else the parsed array of
locations (a single object is wrapped into a one-element array). -/
abbrev LegacyEntry : Type := Option (List Location)

/-- Whole-app state the Migration Engine touches: the persisted flag
`localStorage['photos_migrated_to_indexeddb'] === 'true'`, the legacy
entries, and the `field-report-photos` database (photo id ↦ decoded
size), plus whether its `savePhoto` writes succeed. -/
structure MigState where
  flag : Bool
  legacy : List LegacyEntry
  photoStore : List (String × Nat)
  deriving Repr, DecidableEq

/-- Accounting record returned by `migrateFromLocalStorage`. -/
structure MigResult where
  success : Nat
  failed : Nat
  totalSize : Nat
  deriving Repr, DecidableEq

/-- Migration status of the `useMigration` hook. -/
inductive MigStatus
  | pending
  | running
  | completed
  | failed
  deriving Repr, DecidableEq

/-- Whether `migrateFromLocalStorage` attempts to migrate a photo:
`photo.data && photo.data.startsWith('data:image/')`. -/
def photoEligible (p : Photo) : Bool :=
  p.hasData && p.dataIsImagePrefixed

/-- Migrate one photo: on an eligible photo, `base64ToBlob` then
`savePhoto` (both inside the per-photo `try`); a decode or store failure
counts `failed`, a success writes the blob and counts `success`. -/
def migratePhoto (storeOk : Bool) (acc : List (String × Nat) × MigResult)
    (p : Photo) : List (String × Nat) × MigResult :=
  if photoEligible p then
    if p.dataDecodable ∧ storeOk then
      (kvPut acc.1 p.id p.dataDecodedSize,
       { acc.2 with success := acc.2.success + 1,
                    totalSize := acc.2.totalSize + p.dataDecodedSize })
    else
      (acc.1, { acc.2 with failed := acc.2.failed + 1 })
  else acc

/-- Scan one parsed legacy entry: every photo of every floor of every
location, in order. -/
def migrateEntry (storeOk : Bool) (acc : List (String × Nat) × MigResult)
    (e : LegacyEntry) : List (String × Nat) × MigResult :=
  match e with
  | none => acc
  | some locs =>
      locs.foldl
        (fun a loc =>
          loc.floors.foldl
            (fun a' fl => fl.photos.foldl (migratePhoto storeOk) a') a)
        acc

/-- `migrateFromLocalStorage()`: scan every legacy entry, counting
successes and failures independently; it catches everything internally
and always resolves with the accounting record. -/
def migrateFromLocalStorage (storeOk : Bool) (st : MigState) :
    MigState × MigResult :=
  let (store', res) :=
    st.legacy.foldl (migrateEntry storeOk)
      (st.photoStore, ⟨0, 0, 0⟩)
  ({ st with photoStore := store' }, res)

/-- `runMigration()` of `useMigration`: when the persisted flag is set,
transition straight to `completed` without touching storage; otherwise
run the scan, set the flag, and transition to `completed` with the
accounting record. -/
def runMigration (storeOk : Bool) (st : MigState) :
    MigState × MigStatus × Option MigResult :=
  if st.flag then (st, .completed, none)
  else
    let (st', res) := migrateFromLocalStorage storeOk st
    ({ st' with flag := true }, .completed, some res)

/-- `forceMigration()`: clear the persisted flag, then `runMigration`. -/
def forceMigration (storeOk : Bool) (st : MigState) :
    MigState × MigStatus × Option MigResult :=
  runMigration storeOk { st with flag := false }

/-- A legacy store is fully migratable when every photo the scan is going
to attempt (present payload with the `data:image/` prefix) has a
decodable payload — in particular any store whose eligible photos have
all been migrated successfully before. -/
def AllEligibleDecodable (st : MigState) : Prop :=
  ∀ e ∈ st.legacy, ∀ loc ∈ e.getD [], ∀ fl ∈ loc.floors,
    ∀ p ∈ fl.photos, photoEligible p = true → p.dataDecodable = true

/-! ## Photo upload into a floor (src/components/LocationForm.tsx,
`handlePhotoUploadFromFiles`) -/

/-- One file of an upload batch, with the environment-determined outcomes
of its processing steps: its mime type, raw byte size, whether
`compressImage` resolves, the resulting compressed size
(`checkImageSize`), whether the per-photo `saveLocationSafely` resolves,
and the identity the new `Photo` gets. -/
structure UploadFile where
  isImage : Bool
  size : Nat
  compressOk : Bool
  compressedSize : Nat
  saveOk : Bool
  photoId : String
  name : String
  now : Nat
  deriving Repr, DecidableEq

/-- Whether one file passes every per-file gate of the loop body:
image mime type, raw size not over 10 MB, compression resolving,
compressed size not over 2 MB, and the save resolving. -/
def fileAccepted (f : UploadFile) : Bool :=
  f.isImage && !(f.size > 10 * 1024 * 1024) && f.compressOk &&
    !(f.compressedSize > 2 * 1024 * 1024) && f.saveOk

/-- The `Photo` record the loop builds for an accepted file. -/
def photoOfFile (f : UploadFile) : Photo :=
  { id := f.photoId, hasData := true, dataIsImagePrefixed := true,
    dataDecodable := true, dataDecodedSize := f.compressedSize,
    name := f.name, timestamp := some f.now }

/-- The floor list committed for one accepted file: the render's
`formData.floors` snapshot with the new photo appended to the matching
floor (`formData` is a per-render constant, so every iteration maps over
the same snapshot). -/
def commitFile (floors0 : List Floor) (floorId : String) (f : UploadFile) :
    List Floor :=
  floors0.map (fun fl =>
    if fl.id = floorId then { fl with photos := fl.photos ++ [photoOfFile f] }
    else fl)

/-- `handlePhotoUploadFromFiles(floorId, files)`: missing floor → no-op;
`floor.photos.length + files.length > 5` → rejection toast and no state
change; high memory pressure → rejection and no state change; otherwise
process files one by one, and the committed state is the last successful
`setFormData` (each built from the entry snapshot). -/
def handlePhotoUploadFromFiles (memHigh : Bool) (floors : List Floor)
    (floorId : String) (files : List UploadFile) : List Floor :=
  match floors.find? (fun fl => fl.id = floorId) with
  | none => floors
  | some floor =>
      if floor.photos.length + files.length > 5 then floors
      else if memHigh then floors
      else
        files.foldl
          (fun committed f =>
            if fileAccepted f then commitFile floors floorId f else committed)
          floors

/-! ## Helper lemmas -/

theorem kvGet_put_self {α : Type} (m : List (String × α)) (k : String)
    (v : α) : kvGet (kvPut m k v) k = some v := by
  induction m with
  | nil => simp [kvPut, kvGet]
  | cons p rest ih =>
      by_cases h : p.1 = k
      · simp [kvPut, kvGet, h]
      · simp [kvPut, kvGet, h, ih]

theorem kvGet_del_self {α : Type} (m : List (String × α)) (k : String) :
    kvGet (kvDel m k) k = none := by
  induction m with
  | nil => simp [kvDel, kvGet]
  | cons p rest ih =>
      by_cases h : p.1 = k
      · simpa [kvDel, kvGet, h] using ih
      · simpa [kvDel, kvGet, h] using ih

theorem kvGet_mem {α : Type} {m : List (String × α)} {k : String} {v : α}
    (h : kvGet m k = some v) : (k, v) ∈ m := by
  induction m with
  | nil => simp [kvGet] at h
  | cons p rest ih =>
      obtain ⟨k', v'⟩ := p
      by_cases hk : k' = k
      · subst hk
        simp [kvGet] at h
        subst h
        exact List.mem_cons_self _ _
      · simp [kvGet, hk] at h
        exact List.mem_cons_of_mem _ (ih h)

/-! ## Claims -/

/-- Concrete Blob Store content for exercising `deleteLocation`: one
location `L1`, one photo blob stored under photo id `p1`, and its
metadata row (display name `photo.jpg`, owner `L1`) under `p1`. -/
def locL1 : Location :=
  { id := "L1", addressAndName := "site", locationType := none,
    checkItems := none, floors := [], notes := none, timestamp := 1,
    lastSaved := some 2 }

def blobP1 : PBlob := ⟨[7, 7, 7]⟩

def dbC1 : DB :=
  { locations := [locL1]
    photos := [("p1", blobP1)]
    metadata := [("p1", ⟨"photo.jpg", 3, 3, "L1", "f1"⟩)]
    settings := [] }

/-- C1: `deleteRecord(id)` is claimed to remove, in the same operation,
every photo blob and metadata row whose owning record id matches, so that
`getPhotoBlob` afterwards returns absent. The code instead deletes the
`photos`/`metadata` entries under the key `meta.name` (the display name),
while both stores are keyed by photo id, so the cascade silently misses
every photo whose display name differs from its id: after deleting `L1`,
the record is gone from the `locations` store but the blob and metadata
of its photo `p1` are both still present. -/
theorem deleteLocation_cascade_misses_photos :
    getLocation (deleteLocation dbC1 "L1") "L1" = none ∧
    loadPhotoBlob (deleteLocation dbC1 "L1") "p1" = some blobP1 ∧
    kvGet (deleteLocation dbC1 "L1").metadata "p1" =
      some ⟨"photo.jpg", 3, 3, "L1", "f1"⟩ := by
  refine ⟨?_, ?_, ?_⟩ <;> rfl

/-- C10: `clearAllData` clears the `locations`, `photos` and `metadata`
object stores within its single transaction and revokes every cached
view handle, while the `settings` store is left unchanged. -/
theorem clearAllData_frame (s : AppState) :
    (clearAllData s).db.locations = [] ∧
    (clearAllData s).db.photos = [] ∧
    (clearAllData s).db.metadata = [] ∧
    (clearAllData s).urlCache = [] ∧
    (clearAllData s).db.settings = s.db.settings ∧
    (clearAllData s).nextUrl = s.nextUrl := by
  simp [clearAllData, revokeAllPhotoUrls]

/-- C7: for a photo id whose blob exists, two `getOrCreate` calls with no
intervening revoke return the identical handle; after `revoke` (or
`revokeAll`) the next `getOrCreate` returns a fresh handle different from
the previous one. The hypothesis is the cache's freshness invariant:
every cached handle is below the `URL.createObjectURL` counter. -/
theorem createPhotoUrl_handle_lifecycle (s : AppState) (pid : String)
    (b : PBlob) (hinv : HandleInv s)
    (hb : loadPhotoBlob s.db pid = some b) :
    ∃ h, (createPhotoUrl s pid).2 = some h ∧
      (createPhotoUrl (createPhotoUrl s pid).1 pid).2 = some h ∧
      (createPhotoUrl (createPhotoUrl s pid).1 pid).1 =
        (createPhotoUrl s pid).1 ∧
      (∃ h2, (createPhotoUrl
          (revokePhotoUrl (createPhotoUrl s pid).1 pid) pid).2 = some h2 ∧
        h2 ≠ h) ∧
      (∃ h3, (createPhotoUrl
          (revokeAllPhotoUrls (createPhotoUrl s pid).1) pid).2 = some h3 ∧
        h3 ≠ h) := by
  cases hc : kvGet s.urlCache pid with
  | some u =>
      have hu : u < s.nextUrl := hinv pid u (kvGet_mem hc)
      have hfirst : createPhotoUrl s pid = (s, some u) := by
        simp [createPhotoUrl, hc]
      refine ⟨u, ?_, ?_, ?_, ⟨s.nextUrl, ?_, by omega⟩,
        ⟨s.nextUrl, ?_, by omega⟩⟩
      · simp [hfirst]
      · rw [hfirst]
        simp [createPhotoUrl, hc]
      · rw [hfirst]
        simp [createPhotoUrl, hc]
      · rw [hfirst]
        simp only [loadPhotoBlob] at hb
        simp [createPhotoUrl, revokePhotoUrl, kvGet_del_self,
          loadPhotoBlob, hb]
      · rw [hfirst]
        simp only [loadPhotoBlob] at hb
        simp [createPhotoUrl, revokeAllPhotoUrls, kvGet,
          loadPhotoBlob, hb]
  | none =>
      have hfirst : createPhotoUrl s pid =
          ({ s with urlCache := kvPut s.urlCache pid s.nextUrl,
                    nextUrl := s.nextUrl + 1 }, some s.nextUrl) := by
        simp [createPhotoUrl, hc, loadPhotoBlob] at hb ⊢
        simp [hb]
      refine ⟨s.nextUrl, ?_, ?_, ?_, ⟨s.nextUrl + 1, ?_, by omega⟩,
        ⟨s.nextUrl + 1, ?_, by omega⟩⟩
      · simp [hfirst]
      · rw [hfirst]
        simp [createPhotoUrl, kvGet_put_self]
      · rw [hfirst]
        simp [createPhotoUrl, kvGet_put_self]
      · rw [hfirst]
        simp only [loadPhotoBlob] at hb
        simp [createPhotoUrl, revokePhotoUrl, kvGet_del_self,
          loadPhotoBlob, hb]
      · rw [hfirst]
        simp only [loadPhotoBlob] at hb
        simp [createPhotoUrl, revokeAllPhotoUrls, kvGet,
          loadPhotoBlob, hb]

/-- Initial state with one stored blob, used to witness the handle-cache
theorem's hypotheses. -/
def stC7 : AppState :=
  { db := { dbC1 with locations := [] }, urlCache := [], nextUrl := 0 }

/-- Witness for the handle-cache theorem: the freshness invariant and the
blob-existence hypothesis hold in `stC7`, and the theorem applies. -/
theorem createPhotoUrl_handle_lifecycle_witness :
    HandleInv stC7 ∧ loadPhotoBlob stC7.db "p1" = some blobP1 ∧
    (∃ h, (createPhotoUrl stC7 "p1").2 = some h ∧
      (createPhotoUrl (createPhotoUrl stC7 "p1").1 "p1").2 = some h ∧
      (createPhotoUrl (createPhotoUrl stC7 "p1").1 "p1").1 =
        (createPhotoUrl stC7 "p1").1 ∧
      (∃ h2, (createPhotoUrl
          (revokePhotoUrl (createPhotoUrl stC7 "p1").1 "p1") "p1").2 =
          some h2 ∧ h2 ≠ h) ∧
      (∃ h3, (createPhotoUrl
          (revokeAllPhotoUrls (createPhotoUrl stC7 "p1").1) "p1").2 =
          some h3 ∧ h3 ≠ h)) := by
  have hinv : HandleInv stC7 := by
    intro p u hmem
    simp [stC7] at hmem
  have hb : loadPhotoBlob stC7.db "p1" = some blobP1 := rfl
  exact ⟨hinv, hb, createPhotoUrl_handle_lifecycle stC7 "p1" blobP1 hinv hb⟩

/-- Environment in which the per-record IndexedDB put of
`saveLocationSafely` is rejected by the platform for quota reasons
(`idbPutFails`), while the localStorage backup path is healthy. -/
def envC2 : SaveEnv :=
  { idbPutFails := true, dataSize := 0, lsSetErr := none,
    lsRetryFails := false }

def locOther : Location :=
  { id := "L0", addressAndName := "other", locationType := none,
    checkItems := none, floors := [], notes := none, timestamp := 1,
    lastSaved := some 1 }

def stC2 : TierState := { ls := some [locOther], idb := [locOther] }

/-- C2 counterexample: the claim says a quota rejection of the primary
per-record put inside `saveLocationSafely` surfaces a `QuotaExceeded`
failure to the caller and is never mistaken for success. In the code the
inner `try` around the IndexedDB put `catch`es the rejection and only
logs it, so with the put rejecting, the save still resolves successfully
(and the IndexedDB tier is left untouched). -/
theorem saveLocationSafely_swallows_primary_quota :
    saveLocationSafely envC2 stC2 locL1 =
      .ok { ls := some [locL1, locOther], idb := [locOther] } := by
  rfl

/-- C2 amended: a rejection of the primary-path put (quota included) is
caught and only logged by `saveLocationSafely`; the writer then proceeds
with the localStorage backup and resolves successfully, leaving the
IndexedDB tier unchanged — no failure surfaces to the caller. -/
theorem saveLocationSafely_primary_failure_resolves_ok
    (env : SaveEnv) (st : TierState) (loc : Location)
    (h : env.idbPutFails = true) :
    ∃ st', saveLocationSafely env st loc = .ok st' ∧ st'.idb = st.idb := by
  obtain ⟨p, d, e, r⟩ := env
  simp only at h
  subst h
  refine ⟨_, rfl, ?_⟩
  simp only [saveLocationSafely]
  split
  · cases e with
    | none => rfl
    | some q =>
        cases q with
        | false => rfl
        | true => cases r <;> rfl
  · rfl


/-- Witness for the amended C2 theorem at the concrete quota environment
`envC2`. -/
theorem saveLocationSafely_primary_failure_resolves_ok_witness :
    envC2.idbPutFails = true ∧
    ∃ st', saveLocationSafely envC2 stC2 locL1 = .ok st' ∧
      st'.idb = stC2.idb :=
  ⟨rfl, saveLocationSafely_primary_failure_resolves_ok envC2 stC2 locL1 rfl⟩

/-- C9: when the full-list localStorage backup write inside
`saveLocationSafely` throws a `QuotaExceededError`, the writer removes
the whole `fieldReportLocations` entry and rewrites it as the one-element
array `[location]` (discarding the legacy tier's backup of every other
record), and the save still resolves successfully. Hypotheses: the
serialized size was under the 5 MB gate (else the backup write is never
attempted) and the one-record retry write itself succeeds. -/
theorem saveLocationSafely_quota_rewrites_single
    (env : SaveEnv) (st : TierState) (loc : Location)
    (hsize : env.dataSize < 5 * 1024 * 1024)
    (herr : env.lsSetErr = some true)
    (hretry : env.lsRetryFails = false) :
    ∃ st', saveLocationSafely env st loc = .ok st' ∧
      st'.ls = some [loc] ∧
      st'.idb = (if env.idbPutFails then st.idb else idbPut st.idb loc) := by
  refine ⟨_, rfl, ?_, ?_⟩ <;>
    by_cases hp : env.idbPutFails = true <;>
      simp [saveLocationSafely, hsize, herr, hretry, hp]

/-- Environment for the C9 witness: primary put succeeds, serialized
size under the gate, full backup write throws `QuotaExceededError`, the
one-record retry succeeds. -/
def envC9 : SaveEnv :=
  { idbPutFails := false, dataSize := 1024, lsSetErr := some true,
    lsRetryFails := false }

/-- Witness for the C9 theorem at `envC9`. -/
theorem saveLocationSafely_quota_rewrites_single_witness :
    envC9.dataSize < 5 * 1024 * 1024 ∧ envC9.lsSetErr = some true ∧
    envC9.lsRetryFails = false ∧
    ∃ st', saveLocationSafely envC9 stC2 locL1 = .ok st' ∧
      st'.ls = some [locL1] ∧
      st'.idb = (if envC9.idbPutFails then stC2.idb
                 else idbPut stC2.idb locL1) :=
  ⟨by decide, rfl, rfl,
    saveLocationSafely_quota_rewrites_single envC9 stC2 locL1
      (by decide) rfl rfl⟩

/-- A JPEG file whose primary blob-URL decode and fallback data-URL
decode both fail, while the `FileReader` read itself succeeds. -/
def fileC3 : ImgFile :=
  { kind := .jpeg, primaryDecodeOk := false, readOk := true,
    fallbackDecodeOk := false, ctxOk := true,
    dataUrl := "data:image/jpeg;base64,AAAA" }

/-- C3 counterexample: the claim says that when both the primary decode
and the fallback decode fail, `compress` fails with a hard error and
never resolves with the original input bytes. The code's fallback path
instead resolves with the data URL read from the original file
(`최후의 수단: 원본 데이터 사용` — "last resort: use the original
data"), so the promise succeeds, carrying the original bytes. -/
theorem compressImage_resolves_original_on_double_decode_failure :
    compressImage fileC3 (7/10) =
      .ok (.original "data:image/jpeg;base64,AAAA") := by
  rfl

/-- C3 amended: when the primary decode fails, the file read succeeds,
and the fallback decode also fails, `compressImage` resolves successfully
with the original data URL; it rejects only when the `FileReader` read
itself fails (or no canvas context is available on a successful decode). -/
theorem compressImage_double_decode_failure_returns_original
    (f : ImgFile) (q : ℚ)
    (h1 : f.primaryDecodeOk = false) (h2 : f.readOk = true)
    (h3 : f.fallbackDecodeOk = false) :
    compressImage f q = .ok (.original f.dataUrl) := by
  cases hk : f.kind <;>
    simp [compressImage, fallbackCompression, hk, h1, h2, h3]

/-- Witness for the amended C3 theorem at `fileC3`. -/
theorem compressImage_double_decode_failure_returns_original_witness :
    fileC3.primaryDecodeOk = false ∧ fileC3.readOk = true ∧
    fileC3.fallbackDecodeOk = false ∧
    compressImage fileC3 (1/2) = .ok (.original fileC3.dataUrl) :=
  ⟨rfl, rfl, rfl,
    compressImage_double_decode_failure_returns_original fileC3 (1/2)
      rfl rfl rfl⟩

/-- In a floor list with pairwise-distinct ids, any member carrying the
searched id is the floor `find?` returned. -/
theorem floor_find?_unique (floors : List Floor) (floorId : String)
    (floor : Floor) (hnd : (floors.map Floor.id).Nodup)
    (hfind : floors.find? (fun fl => fl.id = floorId) = some floor)
    {fl : Floor} (hmem : fl ∈ floors) (hid : fl.id = floorId) :
    fl = floor := by
  induction floors with
  | nil => simp at hmem
  | cons a t ih =>
      simp only [List.map_cons, List.nodup_cons] at hnd
      by_cases ha : a.id = floorId
      · have hfa : floor = a := by
          rw [List.find?_cons_of_pos _ (by simpa using ha)] at hfind
          exact (Option.some_inj.mp hfind).symm
        subst hfa
        rcases List.mem_cons.mp hmem with h | h
        · exact h
        · exfalso
          apply hnd.1
          rw [ha, ← hid]
          exact List.mem_map_of_mem Floor.id h
      · rcases List.mem_cons.mp hmem with h | h
        · exact absurd (h ▸ hid) ha
        · refine ih hnd.2 ?_ h
          rwa [List.find?_cons_of_neg _ (by simpa using ha)] at hfind

/-- The fold of the upload loop commits either nothing or the snapshot
with exactly one accepted file's photo appended. -/
theorem upload_foldl_cases (floors : List Floor) (floorId : String) :
    ∀ (fs : List UploadFile) (init : List Floor),
      (init = floors ∨
        ∃ f, fileAccepted f = true ∧ init = commitFile floors floorId f) →
      ((fs.foldl (fun committed f =>
          if fileAccepted f then commitFile floors floorId f else committed)
          init) = floors ∨
        ∃ f, fileAccepted f = true ∧
          (fs.foldl (fun committed f =>
            if fileAccepted f then commitFile floors floorId f
            else committed) init) = commitFile floors floorId f) := by
  intro fs
  induction fs with
  | nil => intro init h; simpa using h
  | cons f rest ih =>
      intro init h
      simp only [List.foldl_cons]
      by_cases hf : fileAccepted f = true
      · exact ih _ (Or.inr ⟨f, hf, by simp [hf]⟩)
      · have : (if fileAccepted f then commitFile floors floorId f
            else init) = init := by simp [hf]
        rw [this]
        exact ih _ h

/-- C6: a floor already holding 5 photos rejects any further upload with
no state change, and every upload operation preserves the invariant that
each floor holds at most 5 photos (floor ids are pairwise distinct, as
produced by `generateId`). -/
theorem photo_upload_limit (memHigh : Bool) (floors : List Floor)
    (floorId : String) (files : List UploadFile) :
    (∀ floor, floors.find? (fun fl => fl.id = floorId) = some floor →
      floor.photos.length = 5 → files ≠ [] →
      handlePhotoUploadFromFiles memHigh floors floorId files = floors) ∧
    ((floors.map Floor.id).Nodup →
      (∀ fl ∈ floors, fl.photos.length ≤ 5) →
      ∀ fl ∈ handlePhotoUploadFromFiles memHigh floors floorId files,
        fl.photos.length ≤ 5) := by
  constructor
  · intro floor hfind h5 hne
    have hlen : 0 < files.length := List.length_pos.mpr hne
    simp only [handlePhotoUploadFromFiles, hfind, h5]
    have : 5 + files.length > 5 := by omega
    simp [this]
  · intro hnd hbound
    simp only [handlePhotoUploadFromFiles]
    cases hfind : floors.find? (fun fl => fl.id = floorId) with
    | none => exact hbound
    | some floor =>
        by_cases hg : floor.photos.length + files.length > 5
        · simp only [hg, if_true]
          exact hbound
        · simp only [hg, if_false]
          cases hm : memHigh with
          | true => exact hbound
          | false =>
              rw [if_neg (by simp)]
              cases files with
              | nil => simpa using hbound
              | cons f0 rest =>
                  have hfl4 : floor.photos.length ≤ 4 := by
                    simp only [not_lt, List.length_cons] at hg
                    omega
                  have hres := upload_foldl_cases floors floorId
                    (f0 :: rest) floors (Or.inl rfl)
                  rcases hres with h | ⟨f, _, h⟩
                  · rw [h]; exact hbound
                  · rw [h]
                    intro fl' hmem'
                    simp only [commitFile, List.mem_map] at hmem'
                    obtain ⟨fl, hfl, rfl⟩ := hmem'
                    by_cases hid : fl.id = floorId
                    · have : fl = floor :=
                        floor_find?_unique floors floorId floor hnd
                          hfind hfl hid
                      subst this
                      simp [hid]
                      omega
                    · simpa [hid] using hbound fl hfl

/-- Concrete floor with 5 photos for the C6 witness. -/
def mkPhotoN (n : Nat) : Photo :=
  { id := toString n, hasData := true, dataIsImagePrefixed := true,
    dataDecodable := true, dataDecodedSize := 1, name := "p", timestamp := none }

def floorFull : Floor :=
  { id := "f1", floorName := "1층", customFloorName := none,
    floorInfo := "", photos := [mkPhotoN 1, mkPhotoN 2, mkPhotoN 3,
      mkPhotoN 4, mkPhotoN 5], isCompleted := none }

def fileOk : UploadFile :=
  { isImage := true, size := 100, compressOk := true,
    compressedSize := 100, saveOk := true, photoId := "p6", name := "x.jpg",
    now := 9 }

/-- Witness for the C6 theorem: a floor holding 5 photos rejects a 6th
with no state change, and the ≤ 5 invariant is preserved. -/
theorem photo_upload_limit_witness :
    ([floorFull].find? (fun fl => fl.id = "f1") = some floorFull ∧
      floorFull.photos.length = 5 ∧ ([fileOk] : List UploadFile) ≠ [] ∧
      handlePhotoUploadFromFiles false [floorFull] "f1" [fileOk] =
        [floorFull]) ∧
    (([floorFull].map Floor.id).Nodup ∧
      (∀ fl ∈ [floorFull], fl.photos.length ≤ 5) ∧
      ∀ fl ∈ handlePhotoUploadFromFiles false [floorFull] "f1" [fileOk],
        fl.photos.length ≤ 5) := by
  have h := photo_upload_limit false [floorFull] "f1" [fileOk]
  refine ⟨⟨rfl, rfl, by simp, h.1 floorFull rfl rfl (by simp)⟩,
    ⟨by simp, ?_, h.2 (by simp) ?_⟩⟩ <;>
    · intro fl hfl
      simp at hfl
      subst hfl
      rfl

/-- A photo whose eligible payload decodes never increments the failure
counter. -/
theorem migratePhoto_failed_eq (acc : List (String × Nat) × MigResult)
    (p : Photo) (hp : photoEligible p = true → p.dataDecodable = true) :
    (migratePhoto true acc p).2.failed = acc.2.failed := by
  by_cases he : photoEligible p = true
  · simp [migratePhoto, he, hp he]
  · simp [migratePhoto, he]

theorem foldl_photos_failed_eq (ps : List Photo)
    (acc : List (String × Nat) × MigResult)
    (h : ∀ p ∈ ps, photoEligible p = true → p.dataDecodable = true) :
    (ps.foldl (migratePhoto true) acc).2.failed = acc.2.failed := by
  induction ps generalizing acc with
  | nil => rfl
  | cons p rest ih =>
      simp only [List.foldl_cons]
      rw [ih _ (fun q hq => h q (List.mem_cons_of_mem _ hq))]
      exact migratePhoto_failed_eq acc p (h p (List.mem_cons_self _ _))

theorem foldl_floors_failed_eq (fls : List Floor)
    (acc : List (String × Nat) × MigResult)
    (h : ∀ fl ∈ fls, ∀ p ∈ fl.photos,
      photoEligible p = true → p.dataDecodable = true) :
    (fls.foldl (fun a' fl => fl.photos.foldl (migratePhoto true) a')
      acc).2.failed = acc.2.failed := by
  induction fls generalizing acc with
  | nil => rfl
  | cons fl rest ih =>
      simp only [List.foldl_cons]
      rw [ih _ (fun g hg => h g (List.mem_cons_of_mem _ hg))]
      exact foldl_photos_failed_eq _ _ (h fl (List.mem_cons_self _ _))

theorem foldl_locs_failed_eq (locs : List Location)
    (acc : List (String × Nat) × MigResult)
    (h : ∀ loc ∈ locs, ∀ fl ∈ loc.floors, ∀ p ∈ fl.photos,
      photoEligible p = true → p.dataDecodable = true) :
    (locs.foldl
      (fun a loc =>
        loc.floors.foldl
          (fun a' fl => fl.photos.foldl (migratePhoto true) a') a)
      acc).2.failed = acc.2.failed := by
  induction locs generalizing acc with
  | nil => rfl
  | cons loc rest ih =>
      simp only [List.foldl_cons]
      rw [ih _ (fun g hg => h g (List.mem_cons_of_mem _ hg))]
      exact foldl_floors_failed_eq _ _ (h loc (List.mem_cons_self _ _))

theorem foldl_entries_failed_eq (es : List LegacyEntry)
    (acc : List (String × Nat) × MigResult)
    (h : ∀ e ∈ es, ∀ loc ∈ e.getD [], ∀ fl ∈ loc.floors,
      ∀ p ∈ fl.photos, photoEligible p = true → p.dataDecodable = true) :
    (es.foldl (migrateEntry true) acc).2.failed = acc.2.failed := by
  induction es generalizing acc with
  | nil => rfl
  | cons e rest ih =>
      simp only [List.foldl_cons]
      rw [ih _ (fun g hg => h g (List.mem_cons_of_mem _ hg))]
      cases e with
      | none => rfl
      | some locs =>
          exact foldl_locs_failed_eq _ _
            (by simpa using h (some locs) (List.mem_cons_self _ _))

/-- With a reachable blob store, a scan over a legacy store whose
eligible payloads all decode reports zero failures. -/
theorem migrateFromLocalStorage_failed_zero (st : MigState)
    (h : AllEligibleDecodable st) :
    (migrateFromLocalStorage true st).2.failed = 0 := by
  simpa [migrateFromLocalStorage] using
    foldl_entries_failed_eq st.legacy (st.photoStore, ⟨0, 0, 0⟩) h

/-- C4: with the persisted Migration Flag set, a run of the Migration
Engine performs no storage writes at all (the whole state, the photo
store included, is returned unchanged) and transitions directly to
`completed`; and `forceMigration` (clearing the flag) followed by the run
on an already-fully-migrated store — every eligible legacy payload
decodes, the blob store reachable — reports `failedCount == 0`. -/
theorem migration_flag_idempotent (storeOk : Bool) (st : MigState) :
    (st.flag = true → runMigration storeOk st = (st, .completed, none)) ∧
    (AllEligibleDecodable st →
      (forceMigration true st).2.1 = MigStatus.completed ∧
      ∃ res, (forceMigration true st).2.2 = some res ∧ res.failed = 0) := by
  constructor
  · intro h
    simp [runMigration, h]
  · intro h
    have hflag : ({ st with flag := false } : MigState).flag = false := rfl
    constructor
    · simp [forceMigration, runMigration, hflag]
    · refine ⟨(migrateFromLocalStorage true { st with flag := false }).2,
        ?_, ?_⟩
      · simp [forceMigration, runMigration, migrateFromLocalStorage]
      · exact migrateFromLocalStorage_failed_zero _ h

/-- Legacy state for the C4 witness: flag set, one legacy entry holding
one location with one eligible, decodable photo. -/
def photoLegacy : Photo :=
  { id := "p9", hasData := true, dataIsImagePrefixed := true,
    dataDecodable := true, dataDecodedSize := 42, name := "nine.jpg",
    timestamp := none }

def floorLegacy : Floor :=
  { id := "f9", floorName := "1층", customFloorName := none,
    floorInfo := "", photos := [photoLegacy], isCompleted := none }

def locLegacy : Location :=
  { id := "L9", addressAndName := "legacy", locationType := none,
    checkItems := none, floors := [floorLegacy], notes := none,
    timestamp := 5, lastSaved := some 6 }

def stC4 : MigState :=
  { flag := true, legacy := [some [locLegacy]], photoStore := [] }

/-- Witness for the migration theorem at `stC4`: the flag is set and
every eligible payload decodes; a run is a completed no-op, and a forced
re-run reports zero failures. -/
theorem migration_flag_idempotent_witness :
    stC4.flag = true ∧ AllEligibleDecodable stC4 ∧
    runMigration true stC4 = (stC4, .completed, none) ∧
    ((forceMigration true stC4).2.1 = MigStatus.completed ∧
      ∃ res, (forceMigration true stC4).2.2 = some res ∧
        res.failed = 0) := by
  have hdec : AllEligibleDecodable stC4 := by
    intro e he loc hloc fl hfl p hp _
    simp only [stC4, List.mem_singleton] at he
    subst he
    simp only [Option.getD_some, List.mem_singleton] at hloc
    subst hloc
    simp only [locLegacy, List.mem_singleton] at hfl
    subst hfl
    simp only [floorLegacy, List.mem_singleton] at hp
    subst hp
    rfl
  have h := migration_flag_idempotent true stC4
  exact ⟨rfl, hdec, h.1 rfl, h.2 hdec⟩

/-! ### Recovery-merge lemmas (C5) -/

/-- Lookup of the (first) record with a given id, as
`recoveredData.find(loc => loc.id === id)` does. -/
def findById (l : List Location) (i : String) : Option Location :=
  l.find? (fun x => x.id = i)

/-- The merge rule as the specification words it: of two copies of one
record, the one with the greater `lastSaved` wins, a copy with absent
`lastSaved` loses to any copy with a present one, and nothing prefers the
second tier on a tie (spec-side definition, to be compared with the
source-side `mergeKeep`). -/
def specWinner (a b : Location) : Location :=
  match a.lastSaved, b.lastSaved with
  | none, none => a
  | none, some _ => b
  | some _, none => a
  | some x, some y => if x < y then b else a

/-- Every present `lastSaved` in the list is a positive epoch-millis
value (every value the writer ever stores comes from `Date.now()`). -/
def PosSaved (l : List Location) : Prop :=
  ∀ x ∈ l, ∀ n, x.lastSaved = some n → 0 < n

/-- On positive timestamps the source's truthiness-based merge condition
agrees with the specification's rule. -/
theorem mergeKeep_eq_specWinner (a b : Location)
    (ha : ∀ n, a.lastSaved = some n → 0 < n)
    (hb : ∀ n, b.lastSaved = some n → 0 < n) :
    mergeKeep a b = specWinner a b := by
  cases hbs : b.lastSaved with
  | none =>
      cases has : a.lastSaved <;>
        simp [mergeKeep, specWinner, numTruthy, hbs, has]
  | some y =>
      have hy : 0 < y := hb y hbs
      cases has : a.lastSaved with
      | none =>
          simp [mergeKeep, specWinner, numTruthy, numOrElse, hbs, has]
          omega
      | some x =>
          have hx : 0 < x := ha x has
          simp only [mergeKeep, specWinner, numTruthy, numOrElse, hbs, has]
          by_cases hxy : x < y <;>
            simp [hxy, Nat.ne_of_gt hy, Nat.ne_of_gt hx]

/-- `mergeKeep` keeps the id of the two copies. -/
theorem mergeKeep_id (a b : Location) (h : a.id = b.id) :
    (mergeKeep a b).id = a.id := by
  unfold mergeKeep
  split
  · exact h.symm
  · rfl

/-- `mergeStep` leaves the id multiset unchanged when the incoming id is
already present, else appends it. -/
theorem mergeStep_map_id (l : Location) (acc : List Location) :
    (mergeStep l acc).map Location.id =
      (if l.id ∈ acc.map Location.id then acc.map Location.id
       else acc.map Location.id ++ [l.id]) := by
  induction acc with
  | nil => simp [mergeStep]
  | cons x xs ih =>
      by_cases hx : x.id = l.id
      · simp [mergeStep, hx, mergeKeep_id x l hx]
      · simp only [mergeStep, hx, if_false, List.map_cons, ih]
        by_cases hmem : l.id ∈ xs.map Location.id <;>
          simp [hmem, Ne.symm hx, hx]

/-- `mergeStep` preserves distinctness of ids. -/
theorem mergeStep_nodup (l : Location) (acc : List Location)
    (h : (acc.map Location.id).Nodup) :
    ((mergeStep l acc).map Location.id).Nodup := by
  rw [mergeStep_map_id]
  by_cases hmem : l.id ∈ acc.map Location.id
  · simpa [hmem] using h
  · rw [if_neg hmem]
    refine List.Nodup.append h (List.nodup_singleton _) ?_
    intro a ha hb
    simp only [List.mem_singleton] at hb
    subst hb
    exact hmem ha

/-- `mergeStep` does not touch entries with a different id. -/
theorem findById_mergeStep_ne (l : Location) (acc : List Location)
    (i : String) (h : i ≠ l.id) :
    findById (mergeStep l acc) i = findById acc i := by
  induction acc with
  | nil =>
      unfold mergeStep findById
      rw [List.find?_cons_of_neg _ (by simp [Ne.symm h])]
  | cons x xs ih =>
      by_cases hx : x.id = l.id
      · simp only [mergeStep, if_pos hx]
        unfold findById
        rw [List.find?_cons_of_neg _
            (by simp [mergeKeep_id x l hx, hx, Ne.symm h]),
          List.find?_cons_of_neg _ (by simp [hx, Ne.symm h])]
      · simp only [mergeStep, if_neg hx]
        by_cases hxi : x.id = i
        · unfold findById
          rw [List.find?_cons_of_pos _ (by simp [hxi]),
            List.find?_cons_of_pos _ (by simp [hxi])]
        · unfold findById
          rw [List.find?_cons_of_neg _ (by simp [hxi]),
            List.find?_cons_of_neg _ (by simp [hxi])]
          exact ih

/-- `mergeStep` installs the merge of the incoming copy with the present
entry (or appends the copy when absent). -/
theorem findById_mergeStep_self (l : Location) (acc : List Location) :
    findById (mergeStep l acc) l.id =
      some (match findById acc l.id with
            | none => l
            | some ex => mergeKeep ex l) := by
  induction acc with
  | nil => simp [mergeStep, findById]
  | cons x xs ih =>
      by_cases hx : x.id = l.id
      · have hid : (mergeKeep x l).id = l.id := by
          rw [mergeKeep_id x l hx, hx]
        simp [mergeStep, hx, findById, hid]
      · simpa [mergeStep, hx, findById] using ih

/-- Folding the merge over entries with other ids leaves a lookup
unchanged. -/
theorem findById_foldl_ne (ls : List Location) (acc : List Location)
    (i : String) (h : ∀ x ∈ ls, x.id ≠ i) :
    findById (ls.foldl (fun a l => mergeStep l a) acc) i = findById acc i := by
  induction ls generalizing acc with
  | nil => rfl
  | cons l rest ih =>
      simp only [List.foldl_cons]
      rw [ih _ (fun x hx => h x (List.mem_cons_of_mem _ hx))]
      exact findById_mergeStep_ne l acc i
        (Ne.symm (h l (List.mem_cons_self _ _)))

/-- Distinctness of ids survives the whole merge fold. -/
theorem foldl_mergeStep_nodup (ls : List Location) (acc : List Location)
    (h : (acc.map Location.id).Nodup) :
    (((ls.foldl (fun a l => mergeStep l a) acc)).map Location.id).Nodup := by
  induction ls generalizing acc with
  | nil => exact h
  | cons l rest ih =>
      simp only [List.foldl_cons]
      exact ih _ (mergeStep_nodup l acc h)

/-- Main fold characterization: when `b` is the only entry of the second
tier carrying its id, the merged list holds exactly the merge of the
first-tier entry with `b` (or `b` itself when the first tier has none). -/
theorem findById_foldl_self (u v : List Location) (b : Location)
    (acc : List Location)
    (hu : ∀ x ∈ u, x.id ≠ b.id) (hv : ∀ x ∈ v, x.id ≠ b.id) :
    findById ((u ++ b :: v).foldl (fun a l => mergeStep l a) acc) b.id =
      some (match findById acc b.id with
            | none => b
            | some ex => mergeKeep ex b) := by
  rw [List.foldl_append, List.foldl_cons]
  rw [findById_foldl_ne v _ b.id hv]
  rw [findById_mergeStep_self]
  rw [findById_foldl_ne u acc b.id hu]

/-- In a list with distinct ids, lookup of a member's id finds exactly
that member. -/
theorem findById_of_mem_nodup (l : List Location) (x : Location)
    (hnd : (l.map Location.id).Nodup) (hx : x ∈ l) :
    findById l x.id = some x := by
  induction l with
  | nil => simp at hx
  | cons a t ih =>
      simp only [List.map_cons, List.nodup_cons] at hnd
      rcases List.mem_cons.mp hx with h | h
      · subst h
        simp [findById]
      · have hne : ¬(a.id = x.id) := by
          intro he
          exact hnd.1 (he ▸ List.mem_map_of_mem Location.id h)
        simpa [findById, hne] using ih hnd.2 h

/-- In a list with distinct ids, a member's id occurs exactly once. -/
theorem countP_id_of_mem_nodup (l : List Location) (w : Location)
    (i : String) (hnd : (l.map Location.id).Nodup) (hw : w ∈ l)
    (hwi : w.id = i) : l.countP (fun y => y.id = i) = 1 := by
  induction l with
  | nil => simp at hw
  | cons a t ih =>
      simp only [List.map_cons, List.nodup_cons] at hnd
      rcases List.mem_cons.mp hw with h | h
      · subst h
        have ht : t.countP (fun y => y.id = i) = 0 := by
          rw [List.countP_eq_zero]
          intro y hy
          simp only [decide_eq_true_eq]
          intro hyi
          exact hnd.1 (hwi ▸ hyi ▸ List.mem_map_of_mem Location.id hy)
        simp [List.countP_cons, ht, hwi]
      · have hai : ¬(a.id = i) := by
          intro he
          exact hnd.1 ((he.trans hwi.symm) ▸ List.mem_map_of_mem Location.id h)
        simp only [List.countP_cons, hai, decide_eq_true_eq]
        simpa [hai] using ih hnd.2 h

/-- In a nodup-by-id decomposition `u ++ b :: v`, no other element
carries `b`'s id. -/
theorem nodup_decomp (u v : List Location) (b : Location)
    (h : (((u ++ b :: v)).map Location.id).Nodup) :
    (∀ x ∈ u, x.id ≠ b.id) ∧ (∀ x ∈ v, x.id ≠ b.id) := by
  simp only [List.map_append, List.map_cons, List.nodup_append,
    List.nodup_cons] at h
  obtain ⟨-, ⟨hbv, -⟩, hdisj⟩ := h
  constructor
  · intro x hx he
    exact hdisj (List.mem_map_of_mem Location.id hx)
      (by simp [he])
  · intro x hx he
    exact hbv (he ▸ List.mem_map_of_mem Location.id hx)

/-- C5: `recoverAll` on two tiers with distinct ids per tier and genuine
(positive) `lastSaved` stamps returns a most-recent-first sequence,
deduplicated by id, and for a record present in both tiers it returns
exactly one copy: the one with the greater `lastSaved`, a copy with
absent `lastSaved` losing to any copy with a present one. -/
theorem recoverAll_merge_precedence (st : TierState)
    (lsArr : List Location) (hls : st.ls = some lsArr)
    (h1 : (st.idb.map Location.id).Nodup)
    (h2 : (lsArr.map Location.id).Nodup)
    (hpos1 : PosSaved st.idb) (hpos2 : PosSaved lsArr) :
    (attemptDataRecovery st).Pairwise
      (fun x y => sortKey y ≤ sortKey x) ∧
    ((attemptDataRecovery st).map Location.id).Nodup ∧
    ∀ a ∈ st.idb, ∀ b ∈ lsArr, a.id = b.id →
      specWinner a b ∈ attemptDataRecovery st ∧
      (attemptDataRecovery st).countP (fun y => y.id = a.id) = 1 := by
  have hperm0 : List.Perm (loadFromIndexedDB st) st.idb := List.mergeSort_perm _ _
  have hnd0 : ((loadFromIndexedDB st).map Location.id).Nodup :=
    ((hperm0.map Location.id).nodup_iff).mpr h1
  set merged : List Location :=
    lsArr.foldl (fun a l => mergeStep l a) (loadFromIndexedDB st) with hmerged
  have hmerged_eq :
      attemptDataRecovery st =
        merged.mergeSort (fun a b => sortKey b ≤ sortKey a) := by
    simp [attemptDataRecovery, hls, hmerged]
  have hpermR : List.Perm (attemptDataRecovery st) merged := by
    rw [hmerged_eq]
    exact List.mergeSort_perm _ _
  have hndM : (merged.map Location.id).Nodup :=
    foldl_mergeStep_nodup lsArr _ hnd0
  refine ⟨?_, ?_, ?_⟩
  · rw [hmerged_eq]
    have hs := @List.sorted_mergeSort Location
      (fun a b => decide (sortKey b ≤ sortKey a))
      (fun a b c h₁ h₂ => by
        simp only [decide_eq_true_eq] at h₁ h₂ ⊢
        omega)
      (fun a b => by
        simp only [Bool.or_eq_true, decide_eq_true_eq]
        omega)
      merged
    exact hs.imp (fun h => by simpa using h)
  · exact ((hpermR.map Location.id).nodup_iff).mpr hndM
  · intro a ha b hb hab
    obtain ⟨u, v, huv⟩ := List.append_of_mem hb
    have hdec := nodup_decomp u v b (huv ▸ h2)
    have hamem : a ∈ loadFromIndexedDB st := (hperm0.mem_iff).mpr ha
    have hfind0 : findById (loadFromIndexedDB st) b.id = some a := by
      rw [← hab]
      exact findById_of_mem_nodup _ a hnd0 hamem
    have hfindM : findById merged b.id = some (mergeKeep a b) := by
      rw [hmerged, huv]
      rw [findById_foldl_self u v b _ hdec.1 hdec.2]
      rw [hfind0]
    have hw : mergeKeep a b ∈ merged := by
      have := List.mem_of_find?_eq_some hfindM
      exact this
    have hwid : (mergeKeep a b).id = a.id := mergeKeep_id a b hab
    have hkeep : mergeKeep a b = specWinner a b :=
      mergeKeep_eq_specWinner a b (hpos1 a ha) (hpos2 b hb)
    constructor
    · rw [← hkeep]
      exact (hpermR.mem_iff).mpr hw
    · rw [hpermR.countP_eq]
      exact countP_id_of_mem_nodup merged (mergeKeep a b) a.id hndM hw hwid

/-- Two copies of record `L1` on the two tiers: the localStorage copy was
saved later. -/
def locA5 : Location :=
  { id := "L1", addressAndName := "a", locationType := none,
    checkItems := none, floors := [], notes := none, timestamp := 1,
    lastSaved := some 10 }

def locB5 : Location :=
  { id := "L1", addressAndName := "a", locationType := none,
    checkItems := none, floors := [], notes := none, timestamp := 2,
    lastSaved := some 20 }

def stC5 : TierState := { ls := some [locB5], idb := [locA5] }

/-- Witness for the recovery-merge theorem on `stC5`. -/
theorem recoverAll_merge_precedence_witness :
    stC5.ls = some [locB5] ∧
    (stC5.idb.map Location.id).Nodup ∧
    (([locB5] : List Location).map Location.id).Nodup ∧
    PosSaved stC5.idb ∧ PosSaved [locB5] ∧
    ((attemptDataRecovery stC5).Pairwise
      (fun x y => sortKey y ≤ sortKey x) ∧
    ((attemptDataRecovery stC5).map Location.id).Nodup ∧
    ∀ a ∈ stC5.idb, ∀ b ∈ ([locB5] : List Location), a.id = b.id →
      specWinner a b ∈ attemptDataRecovery stC5 ∧
      (attemptDataRecovery stC5).countP (fun y => y.id = a.id) = 1) := by
  have h1 : (stC5.idb.map Location.id).Nodup := by simp [stC5]
  have h2 : (([locB5] : List Location).map Location.id).Nodup := by simp
  have hp1 : PosSaved stC5.idb := by
    intro x hx n hn
    simp only [stC5, List.mem_singleton] at hx
    subst hx
    simp only [locA5, Option.some_inj] at hn
    omega
  have hp2 : PosSaved [locB5] := by
    intro x hx n hn
    simp only [List.mem_singleton] at hx
    subst hx
    simp only [locB5, Option.some_inj] at hn
    omega
  exact ⟨rfl, h1, h2, hp1, hp2,
    recoverAll_merge_precedence stC5 [locB5] rfl h1 h2 hp1 hp2⟩

/-! ### Canvas dimension lemmas (C8) -/

theorem jsRound_le_of_le (x : ℚ) (n : ℤ) (h : x ≤ (n : ℚ)) :
    jsRound x ≤ n := by
  unfold jsRound
  rw [Int.floor_le_iff]
  linarith

theorem jsRound_nonneg (x : ℚ) (h : 0 ≤ x) : 0 ≤ jsRound x := by
  unfold jsRound
  rw [Int.le_floor]
  push_cast
  linarith

theorem jsRound_err (x : ℚ) : |((jsRound x : ℤ) : ℚ) - x| ≤ 1/2 := by
  have h1 : ((jsRound x : ℤ) : ℚ) ≤ x + 1/2 := Int.floor_le _
  have h2 : x + 1/2 < ((jsRound x : ℤ) : ℚ) + 1 := Int.lt_floor_add_one _
  rw [abs_le]
  constructor <;> linarith

/-- C8 counterexample: the claim says that when the pixel product exceeds
the ~16M ceiling the dimensions are downsized *below* that ceiling before
encoding. At a decoded 5000×4000 image with `maxWidth = 6000` the first
stage leaves 5000×4000 (20M pixels); the downsize stage computes
`s = √(16777216/20000000)` and rounds to 4579×3664 — whose product
16 777 456 still *exceeds* the 4096·4096 = 16 777 216 ceiling. -/
theorem canvasDims_rounds_above_ceiling :
    canvasDims 5000 4000 6000 (4579, 3664) ∧
    (4579 * 3664 : ℤ) > canvasCeiling := by
  constructor
  · have hcalc : calcResize 5000 4000 6000 = (5000, 4000) := by
      unfold calcResize
      norm_num
    unfold canvasDims
    rw [hcalc]
    norm_num [canvasCeiling]
    show downsizeRel 5000 4000 4579 3664
    set s : ℝ := Real.sqrt ((16777216 : ℝ) / 20000000) with hsdef
    have hsnn : 0 ≤ s := Real.sqrt_nonneg _
    have hs2 : s ^ 2 = (16777216 : ℝ) / 20000000 :=
      Real.sq_sqrt (by norm_num)
    have h5000 : (5000 : ℝ) * s = Real.sqrt 20971520 := by
      rw [hsdef, show (5000 : ℝ) = Real.sqrt 25000000 by
          rw [show (25000000 : ℝ) = 5000 ^ 2 by norm_num,
            Real.sqrt_sq (by norm_num)],
        ← Real.sqrt_mul (by norm_num)]
      norm_num
    have h4000 : (4000 : ℝ) * s = Real.sqrt (67108864 / 5) := by
      rw [hsdef, show (4000 : ℝ) = Real.sqrt 16000000 by
          rw [show (16000000 : ℝ) = 4000 ^ 2 by norm_num,
            Real.sqrt_sq (by norm_num)],
        ← Real.sqrt_mul (by norm_num)]
      norm_num
    refine ⟨s, hsnn, ?_, ?_, ?_⟩
    · push_cast
      rw [hs2]
      norm_num [canvasCeiling]
    · constructor
      · push_cast
        rw [h5000]
        have : (4578.5 : ℝ) ≤ Real.sqrt 20971520 := by
          rw [Real.le_sqrt (by norm_num) (by norm_num)]
          norm_num
        linarith
      · push_cast
        rw [h5000]
        have : Real.sqrt 20971520 < 4579.5 := by
          rw [Real.sqrt_lt' (by norm_num)]
          norm_num
        linarith
    · constructor
      · push_cast
        rw [h4000]
        have : (3663.5 : ℝ) ≤ Real.sqrt (67108864 / 5) := by
          rw [Real.le_sqrt (by norm_num) (by norm_num)]
          norm_num
        linarith
      · push_cast
        rw [h4000]
        have : Real.sqrt (67108864 / 5) < 3664.5 := by
          rw [Real.sqrt_lt' (by norm_num)]
          norm_num
        linarith
  · norm_num [canvasCeiling]

/-- First-stage resize: nonnegative outputs, bounded by the inputs and by
`maxWidth`, and aspect preserved to within half a pixel by one common
rational scale. -/
theorem calcResize_spec (w h maxWidth : ℤ) (hw : 0 < w) (hh : 0 < h)
    (hm : 0 < maxWidth) :
    0 ≤ (calcResize w h maxWidth).1 ∧ 0 ≤ (calcResize w h maxWidth).2 ∧
    (calcResize w h maxWidth).1 ≤ w ∧ (calcResize w h maxWidth).2 ≤ h ∧
    (calcResize w h maxWidth).1 ≤ maxWidth ∧
    (calcResize w h maxWidth).2 ≤ maxWidth ∧
    ∃ q : ℚ, 0 < q ∧
      |((calcResize w h maxWidth).1 : ℚ) - q * (w : ℚ)| ≤ 1/2 ∧
      |((calcResize w h maxWidth).2 : ℚ) - q * (h : ℚ)| ≤ 1/2 := by
  by_cases hc : max w h > maxWidth
  · have hmaxD : (0 : ℚ) < ((max w h : ℤ) : ℚ) := by
      have : (0 : ℤ) < max w h := lt_of_lt_of_le hw (le_max_left _ _)
      exact_mod_cast this
    have hwle : (w : ℚ) ≤ ((max w h : ℤ) : ℚ) := by
      exact_mod_cast le_max_left w h
    have hhle : (h : ℚ) ≤ ((max w h : ℤ) : ℚ) := by
      exact_mod_cast le_max_right w h
    have hmle : (maxWidth : ℚ) ≤ ((max w h : ℤ) : ℚ) := by
      exact_mod_cast le_of_lt hc
    have hwq : (0 : ℚ) < (w : ℚ) := by exact_mod_cast hw
    have hhq : (0 : ℚ) < (h : ℚ) := by exact_mod_cast hh
    have hmq : (0 : ℚ) < (maxWidth : ℚ) := by exact_mod_cast hm
    have hre : calcResize w h maxWidth =
        (jsRound ((w * maxWidth : ℤ) / ((max w h : ℤ) : ℚ)),
         jsRound ((h * maxWidth : ℤ) / ((max w h : ℤ) : ℚ))) := by
      unfold calcResize
      rw [if_pos hc]
    have hxw : ((w * maxWidth : ℤ) : ℚ) / ((max w h : ℤ) : ℚ) ≤ (w : ℚ) := by
      rw [div_le_iff₀ hmaxD, Int.cast_mul]
      exact mul_le_mul_of_nonneg_left hmle (le_of_lt hwq)
    have hxw' : ((w * maxWidth : ℤ) : ℚ) / ((max w h : ℤ) : ℚ) ≤
        (maxWidth : ℚ) := by
      rw [div_le_iff₀ hmaxD, Int.cast_mul]
      nlinarith [mul_le_mul_of_nonneg_left hwle (le_of_lt hmq)]
    have hxh : ((h * maxWidth : ℤ) : ℚ) / ((max w h : ℤ) : ℚ) ≤ (h : ℚ) := by
      rw [div_le_iff₀ hmaxD, Int.cast_mul]
      exact mul_le_mul_of_nonneg_left hmle (le_of_lt hhq)
    have hxh' : ((h * maxWidth : ℤ) : ℚ) / ((max w h : ℤ) : ℚ) ≤
        (maxWidth : ℚ) := by
      rw [div_le_iff₀ hmaxD, Int.cast_mul]
      nlinarith [mul_le_mul_of_nonneg_left hhle (le_of_lt hmq)]
    have hxwnn : (0 : ℚ) ≤ ((w * maxWidth : ℤ) : ℚ) / ((max w h : ℤ) : ℚ) := by
      apply div_nonneg _ (le_of_lt hmaxD)
      exact_mod_cast (mul_nonneg (le_of_lt hw) (le_of_lt hm))
    have hxhnn : (0 : ℚ) ≤ ((h * maxWidth : ℤ) : ℚ) / ((max w h : ℤ) : ℚ) := by
      apply div_nonneg _ (le_of_lt hmaxD)
      exact_mod_cast (mul_nonneg (le_of_lt hh) (le_of_lt hm))
    rw [hre]
    refine ⟨jsRound_nonneg _ hxwnn, jsRound_nonneg _ hxhnn,
      jsRound_le_of_le _ _ hxw, jsRound_le_of_le _ _ hxh,
      jsRound_le_of_le _ _ hxw', jsRound_le_of_le _ _ hxh',
      (maxWidth : ℚ) / ((max w h : ℤ) : ℚ), div_pos hmq hmaxD, ?_, ?_⟩
    · have := jsRound_err (((w * maxWidth : ℤ) : ℚ) / ((max w h : ℤ) : ℚ))
      have heq : ((maxWidth : ℚ) / ((max w h : ℤ) : ℚ)) * (w : ℚ) =
          ((w * maxWidth : ℤ) : ℚ) / ((max w h : ℤ) : ℚ) := by
        push_cast
        ring
      rw [heq]
      exact this
    · have := jsRound_err (((h * maxWidth : ℤ) : ℚ) / ((max w h : ℤ) : ℚ))
      have heq : ((maxWidth : ℚ) / ((max w h : ℤ) : ℚ)) * (h : ℚ) =
          ((h * maxWidth : ℤ) : ℚ) / ((max w h : ℤ) : ℚ) := by
        push_cast
        ring
      rw [heq]
      exact this
  · have hre : calcResize w h maxWidth = (w, h) := by
      unfold calcResize
      rw [if_neg hc]
    push_neg at hc
    rw [hre]
    refine ⟨le_of_lt hw, le_of_lt hh, le_refl _, le_refl _,
      le_trans (le_max_left w h) hc, le_trans (le_max_right w h) hc,
      1, one_pos, by simp, by simp⟩

set_option maxHeartbeats 1000000 in
/-- C8 amended: for a decoded `w × h` image, `compressWithCanvas` outputs
dimensions whose larger side never exceeds `maxDimensionPx` and which
preserve the aspect ratio up to rounding (both dimensions within one
pixel of a single common scale); when the pixel product exceeds the
~16M ceiling, the dimensions are rescaled so the pre-rounding product
equals the ceiling exactly — after rounding the product may slightly
*exceed* the ceiling, by less than `w + h` pixels. -/
theorem canvasDims_aspect_and_ceiling (w h maxWidth : ℤ) (out : ℤ × ℤ)
    (hw : 0 < w) (hh : 0 < h) (hm : 0 < maxWidth)
    (hdims : canvasDims w h maxWidth out) :
    max out.1 out.2 ≤ maxWidth ∧
    (∃ s : ℝ, 0 < s ∧ |((out.1 : ℤ) : ℝ) - s * (w : ℝ)| ≤ 1 ∧
      |((out.2 : ℤ) : ℝ) - s * (h : ℝ)| ≤ 1) ∧
    out.1 * out.2 ≤ canvasCeiling + w + h := by
  obtain ⟨hr1nn, hr2nn, hr1w, hr2h, hr1m, hr2m, q, hq, hqw, hqh⟩ :=
    calcResize_spec w h maxWidth hw hh hm
  simp only [canvasDims] at hdims
  rcases hrc : calcResize w h maxWidth with ⟨r1, r2⟩
  rw [hrc] at hr1nn hr2nn hr1w hr2h hr1m hr2m hqw hqh hdims
  simp only at hr1nn hr2nn hr1w hr2h hr1m hr2m hqw hqh hdims
  have hqR : (0 : ℝ) < (q : ℝ) := by exact_mod_cast hq
  have hqwR : |(r1 : ℝ) - (q : ℝ) * (w : ℝ)| ≤ 1/2 := by
    have h2 : ((|(r1 : ℚ) - q * (w : ℚ)| : ℚ) : ℝ) ≤ ((1/2 : ℚ) : ℝ) :=
      (Rat.cast_le (K := ℝ)).mpr hqw
    rw [Rat.cast_abs] at h2
    push_cast at h2
    convert h2 using 3
  have hqhR : |(r2 : ℝ) - (q : ℝ) * (h : ℝ)| ≤ 1/2 := by
    have h2 : ((|(r2 : ℚ) - q * (h : ℚ)| : ℚ) : ℝ) ≤ ((1/2 : ℚ) : ℝ) :=
      (Rat.cast_le (K := ℝ)).mpr hqh
    rw [Rat.cast_abs] at h2
    push_cast at h2
    convert h2 using 3
  by_cases hbig : r1 * r2 > canvasCeiling
  · rw [if_pos hbig] at hdims
    obtain ⟨s, hsnn, hs2, hrd1, hrd2⟩ := hdims
    have hCz : (0 : ℤ) < canvasCeiling := by norm_num [canvasCeiling]
    have hr1z : 0 < r1 := by nlinarith
    have hr2z : 0 < r2 := by nlinarith
    have hr1pos : (0 : ℝ) < (r1 : ℝ) := by exact_mod_cast hr1z
    have hr2pos : (0 : ℝ) < (r2 : ℝ) := by exact_mod_cast hr2z
    have hprod : (canvasCeiling : ℝ) < (r1 : ℝ) * (r2 : ℝ) := by
      exact_mod_cast hbig
    have hCpos : (0 : ℝ) < (canvasCeiling : ℝ) := by exact_mod_cast hCz
    have hP : (0 : ℝ) < (r1 : ℝ) * (r2 : ℝ) := mul_pos hr1pos hr2pos
    have hspos : 0 < s := by
      rcases lt_or_eq_of_le hsnn with hlt | heq
      · exact hlt
      · exfalso
        rw [← heq] at hs2
        simp at hs2
        nlinarith
    have hsq1 : s ^ 2 < 1 := by
      have h1 : s ^ 2 * ((r1 : ℝ) * (r2 : ℝ)) <
          1 * ((r1 : ℝ) * (r2 : ℝ)) := by
        rw [hs2, one_mul]
        exact hprod
      exact lt_of_mul_lt_mul_right h1 (le_of_lt hP)
    have hsle1 : s ≤ 1 := by nlinarith [hsq1, hspos]
    obtain ⟨e1a, e1b⟩ := hrd1
    obtain ⟨e2a, e2b⟩ := hrd2
    have hr1R : (r1 : ℝ) ≤ (w : ℝ) := by exact_mod_cast hr1w
    have hr2R : (r2 : ℝ) ≤ (h : ℝ) := by exact_mod_cast hr2h
    have hr1ss : (r1 : ℝ) * s ≤ (r1 : ℝ) := by
      have := mul_le_mul_of_nonneg_left hsle1 (le_of_lt hr1pos)
      simpa [mul_comm] using this
    have hr2ss : (r2 : ℝ) * s ≤ (r2 : ℝ) := by
      have := mul_le_mul_of_nonneg_left hsle1 (le_of_lt hr2pos)
      simpa [mul_comm] using this
    have hr1sw : (r1 : ℝ) * s ≤ (w : ℝ) := le_trans hr1ss hr1R
    have hr2sh : (r2 : ℝ) * s ≤ (h : ℝ) := le_trans hr2ss hr2R
    have hr1snn : (0 : ℝ) ≤ (r1 : ℝ) * s := by positivity
    have hr2snn : (0 : ℝ) ≤ (r2 : ℝ) * s := by positivity
    have hout1le : out.1 ≤ r1 := by
      have h2 : (out.1 : ℝ) < (r1 : ℝ) + 1 := by linarith
      have h3 : out.1 < r1 + 1 := by exact_mod_cast h2
      omega
    have hout2le : out.2 ≤ r2 := by
      have h2 : (out.2 : ℝ) < (r2 : ℝ) + 1 := by linarith
      have h3 : out.2 < r2 + 1 := by exact_mod_cast h2
      omega
    have hout1nn : 0 ≤ out.1 := by
      have h2 : (-1 : ℝ) < (out.1 : ℝ) := by linarith
      have h3 : (-1 : ℤ) < out.1 := by exact_mod_cast h2
      omega
    have hout2nn : 0 ≤ out.2 := by
      have h2 : (-1 : ℝ) < (out.2 : ℝ) := by linarith
      have h3 : (-1 : ℤ) < out.2 := by exact_mod_cast h2
      omega
    refine ⟨max_le (le_trans hout1le hr1m) (le_trans hout2le hr2m),
      ⟨s * (q : ℝ), mul_pos hspos hqR, ?_, ?_⟩, ?_⟩
    · have t1 : |(out.1 : ℝ) - (r1 : ℝ) * s| ≤ 1/2 := by
        rw [abs_le]
        constructor <;> linarith
      have t2 : |(r1 : ℝ) * s - (s * (q : ℝ)) * (w : ℝ)| ≤ 1/2 := by
        have hm1 := abs_mul ((r1 : ℝ) - (q : ℝ) * (w : ℝ)) s
        have habs : |s| = s := abs_of_nonneg hsnn
        have hle : |(r1 : ℝ) - (q : ℝ) * (w : ℝ)| * s ≤ 1/2 := by
          nlinarith [abs_nonneg ((r1 : ℝ) - (q : ℝ) * (w : ℝ))]
        calc |(r1 : ℝ) * s - (s * (q : ℝ)) * (w : ℝ)|
            = |((r1 : ℝ) - (q : ℝ) * (w : ℝ)) * s| := by ring_nf
          _ = |(r1 : ℝ) - (q : ℝ) * (w : ℝ)| * s := by rw [hm1, habs]
          _ ≤ 1/2 := hle
      calc |(out.1 : ℝ) - (s * (q : ℝ)) * (w : ℝ)|
          ≤ |(out.1 : ℝ) - (r1 : ℝ) * s| +
            |(r1 : ℝ) * s - (s * (q : ℝ)) * (w : ℝ)| := abs_sub_le _ _ _
        _ ≤ 1 := by linarith
    · have t1 : |(out.2 : ℝ) - (r2 : ℝ) * s| ≤ 1/2 := by
        rw [abs_le]
        constructor <;> linarith
      have t2 : |(r2 : ℝ) * s - (s * (q : ℝ)) * (h : ℝ)| ≤ 1/2 := by
        have hm1 := abs_mul ((r2 : ℝ) - (q : ℝ) * (h : ℝ)) s
        have habs : |s| = s := abs_of_nonneg hsnn
        have hle : |(r2 : ℝ) - (q : ℝ) * (h : ℝ)| * s ≤ 1/2 := by
          nlinarith [abs_nonneg ((r2 : ℝ) - (q : ℝ) * (h : ℝ))]
        calc |(r2 : ℝ) * s - (s * (q : ℝ)) * (h : ℝ)|
            = |((r2 : ℝ) - (q : ℝ) * (h : ℝ)) * s| := by ring_nf
          _ = |(r2 : ℝ) - (q : ℝ) * (h : ℝ)| * s := by rw [hm1, habs]
          _ ≤ 1/2 := hle
      calc |(out.2 : ℝ) - (s * (q : ℝ)) * (h : ℝ)|
          ≤ |(out.2 : ℝ) - (r2 : ℝ) * s| +
            |(r2 : ℝ) * s - (s * (q : ℝ)) * (h : ℝ)| := abs_sub_le _ _ _
        _ ≤ 1 := by linarith
    · have hwR : (1 : ℝ) ≤ (w : ℝ) := by exact_mod_cast hw
      have hhR : (1 : ℝ) ≤ (h : ℝ) := by exact_mod_cast hh
      have hout2R : (0 : ℝ) ≤ (out.2 : ℝ) := by exact_mod_cast hout2nn
      have hfac : (0 : ℝ) ≤ (r1 : ℝ) * s + 1/2 := by linarith
      have key : (out.1 : ℝ) * (out.2 : ℝ) ≤
          ((r1 : ℝ) * s + 1/2) * ((r2 : ℝ) * s + 1/2) :=
        mul_le_mul e1a e2a hout2R hfac
      have hABC : ((r1 : ℝ) * s) * ((r2 : ℝ) * s) = (canvasCeiling : ℝ) := by
        nlinarith [hs2]
      have hreal : (out.1 : ℝ) * (out.2 : ℝ) <
          (canvasCeiling : ℝ) + (w : ℝ) + (h : ℝ) := by
        nlinarith [key, hABC, hr1sw, hr2sh]
      have hz : out.1 * out.2 < canvasCeiling + w + h := by
        exact_mod_cast hreal
      omega
  · rw [if_neg hbig] at hdims
    subst hdims
    push_neg at hbig
    simp only
    refine ⟨max_le hr1m hr2m, ⟨(q : ℝ), hqR, ?_, ?_⟩, ?_⟩
    · linarith [hqwR]
    · linarith [hqhR]
    · omega

/-- Witness for the canvas-dimension theorem: a 3000×4000 image with
`maxWidth = 1200` resizes to 900×1200 (Scenario 1 of the spec). -/
theorem canvasDims_aspect_and_ceiling_witness :
    (0 : ℤ) < 3000 ∧ (0 : ℤ) < 4000 ∧ (0 : ℤ) < 1200 ∧
    canvasDims 3000 4000 1200 (900, 1200) ∧
    (max (900 : ℤ) 1200 ≤ 1200 ∧
     (∃ s : ℝ, 0 < s ∧ |((900 : ℤ) : ℝ) - s * ((3000 : ℤ) : ℝ)| ≤ 1 ∧
       |((1200 : ℤ) : ℝ) - s * ((4000 : ℤ) : ℝ)| ≤ 1) ∧
     (900 : ℤ) * 1200 ≤ canvasCeiling + 3000 + 4000) := by
  have hmax : max (3000 : ℤ) 4000 = 4000 := by norm_num
  have h1 : jsRound (((3000 * 1200 : ℤ) : ℚ) / ((4000 : ℤ) : ℚ)) = 900 := by
    unfold jsRound
    rw [Int.floor_eq_iff]
    norm_num
  have h2 : jsRound (((4000 * 1200 : ℤ) : ℚ) / ((4000 : ℤ) : ℚ)) = 1200 := by
    unfold jsRound
    rw [Int.floor_eq_iff]
    norm_num
  have hcalc : calcResize 3000 4000 1200 = (900, 1200) := by
    unfold calcResize
    rw [if_pos (by rw [hmax]; norm_num)]
    rw [hmax, h1, h2]
  have hdims : canvasDims 3000 4000 1200 (900, 1200) := by
    simp only [canvasDims, hcalc]
    norm_num [canvasCeiling]
  exact ⟨by norm_num, by norm_num, by norm_num, hdims,
    canvasDims_aspect_and_ceiling 3000 4000 1200 (900, 1200)
      (by norm_num) (by norm_num) (by norm_num) hdims⟩

end FieldApp
